import Mathlib

/-!
Verification development for the equity-research runner repository.

The Python sources are shallowly embedded: Python floats are modeled as
exact rationals (`ℚ`), dictionaries by structures or `Option` fields,
raised exceptions by `Except String`, and Python's `round(x, 2)` by exact
half-to-even rounding on `ℚ` (`round2`).  External libraries
(BeautifulSoup, ElementTree, httpx, yfinance, urllib) are modeled as data
supplied to the embedded functions: the functions receive the parsed
values those libraries would produce, and every piece of logic written in
the repository itself is translated directly.
-/

instance {ε α : Type} [DecidableEq ε] [DecidableEq α] : DecidableEq (Except ε α) :=
  fun a b =>
    match a, b with
    | .error e1, .error e2 =>
      if h : e1 = e2 then isTrue (by rw [h])
      else isFalse fun hc => h (Except.error.inj hc)
    | .error _, .ok _ => isFalse fun hc => Except.noConfusion hc
    | .ok _, .error _ => isFalse fun hc => Except.noConfusion hc
    | .ok a1, .ok a2 =>
      if h : a1 = a2 then isTrue (by rw [h])
      else isFalse fun hc => h (Except.ok.inj hc)

/-- Banker's rounding of a rational to an integer: nearest integer,
ties to the even one.  This is the rounding mode of Python's `round`
(on the idealized exact value). -/
def roundHalfEven (x : ℚ) : ℤ :=
  if x - (Rat.floor x : ℚ) < 1/2 then Rat.floor x
  else if 1/2 < x - (Rat.floor x : ℚ) then Rat.floor x + 1
  else if Rat.floor x % 2 = 0 then Rat.floor x else Rat.floor x + 1

/-- Model of Python's `round(x, 2)`: round to two decimal places,
half to even. -/
def round2 (x : ℚ) : ℚ :=
  ((roundHalfEven (100 * x) : ℤ) : ℚ) / 100

/-- The last `k` elements of a list, as produced by the Python slice
`l[-k:]` (the whole list when it has at most `k` elements). -/
def lastN (k : Nat) (l : List α) : List α :=
  l.drop (l.length - k)

/-- Maximum of a list of rationals (Python `max`; the default value for
`[]` is never used by the embedded code, which guards against empty
input). -/
def listMax : List ℚ → ℚ
  | [] => 0
  | x :: xs => xs.foldl max x

/-- Minimum of a list of rationals (Python `min`). -/
def listMin : List ℚ → ℚ
  | [] => 0
  | x :: xs => xs.foldl min x

/-- `isPrefixChars p s` is true when `p` is a prefix of `s`. -/
def isPrefixChars : List Char → List Char → Bool
  | [], _ => true
  | _ :: _, [] => false
  | p :: ps, c :: cs => p == c && isPrefixChars ps cs

/-- Left-to-right scan counting non-overlapping occurrences of `pat`:
on a match the scan skips past it, otherwise it advances one character.
`fuel` only bounds the recursion depth (every step consumes at least one
character, so `s.length` is always enough); it keeps the recursion
structural so the kernel can evaluate it. -/
def countOccsAux (pat : List Char) : Nat → List Char → Nat
  | 0, _ => 0
  | _, [] => 0
  | f + 1, c :: rest =>
    if isPrefixChars pat (c :: rest) && !pat.isEmpty then
      1 + countOccsAux pat f ((c :: rest).drop pat.length)
    else
      countOccsAux pat f rest

/-- Number of non-overlapping occurrences of `pat` in `s`, scanning left
to right: the semantics of Python's `str.count` for a non-empty
pattern. -/
def countOccs (pat : List Char) (s : List Char) : Nat :=
  countOccsAux pat s.length s

/-- Substring test: the semantics of Python's `in` operator on strings. -/
def hasSubstr (pat : List Char) : List Char → Bool
  | [] => pat.isEmpty
  | c :: rest => isPrefixChars pat (c :: rest) || hasSubstr pat rest

/-- Lower-cased character list of a string (Python `str.lower` on ASCII
text). -/
def lowerChars (text : String) : List Char :=
  text.data.map Char.toLower

/-- Upper-cased string (Python `str.upper` on ASCII text, applied to
ticker symbols). -/
def toUpperPy (s : String) : String :=
  String.mk (s.data.map Char.toUpper)

/-- ASCII whitespace, as matched by Python's regex `\s` and stripped by
`str.strip`. -/
def isSpacePy (c : Char) : Bool :=
  c == ' ' || c == '\t' || c == '\n' || c == '\r' || c == '\x0b' || c == '\x0c'

/-! ## `src/tools/ratios.py` -/

/-- `_sma(values)` from `src/tools/ratios.py`: `0.0` on an empty list,
otherwise `round(sum(values) / len(values), 2)`. -/
def sma (values : List ℚ) : ℚ :=
  if values = [] then 0
  else round2 (values.sum / (values.length : ℚ))

/-- The day-over-day changes inspected by `_rsi`: for `i` in
`1..period`, `prices[-i] - prices[-i-1]` (here `i = k + 1` for
`k < period`). -/
def rsiChanges (prices : List ℚ) (period : Nat) : List ℚ :=
  (List.range period).map fun k =>
    prices.getD (prices.length - (k + 1)) 0 - prices.getD (prices.length - (k + 2)) 0

/-- `avg_gain` in `_rsi`: `sum(gains) / period if gains else 0.0`, where
`gains` are the non-negative changes. -/
def rsiAvgGain (prices : List ℚ) (period : Nat) : ℚ :=
  let gains := (rsiChanges prices period).filter fun c => decide (0 ≤ c)
  if gains = [] then 0 else gains.sum / (period : ℚ)

/-- `avg_loss` in `_rsi`: `sum(losses) / period if losses else 0.0`,
where `losses` are the absolute values of the negative changes. -/
def rsiAvgLoss (prices : List ℚ) (period : Nat) : ℚ :=
  let losses := ((rsiChanges prices period).filter fun c => decide (c < 0)).map (fun c => -c)
  if losses = [] then 0 else losses.sum / (period : ℚ)

/-- `_rsi(prices, period)` from `src/tools/ratios.py`. -/
def rsi (prices : List ℚ) (period : Nat) : ℚ :=
  if prices.length < period + 1 then 50
  else if rsiAvgLoss prices period = 0 then 100
  else round2 (100 - 100 / (1 + rsiAvgGain prices period / rsiAvgLoss prices period))

/-- A row of a price history: the `{date, close}` dictionaries built by
`src/tools/prices.py` and consumed by `src/tools/ratios.py` via
`row["close"]`. -/
structure PricePoint where
  date : String
  close : ℚ
deriving DecidableEq, Repr

/-- The dictionary returned by `RatiosTool.compute`. -/
structure RatioSet where
  sma20 : ℚ
  sma50 : ℚ
  rsi14 : ℚ
  latest_close : ℚ
deriving DecidableEq, Repr

/-- `RatiosTool.compute(price_payload)` from `src/tools/ratios.py`.
The payload dictionary is modeled by its `"history"` entry, the only key
the method reads; `none` models a payload without that key, so that
`price_payload.get("history", [])` is `history.getD []`. -/
def RatiosTool.compute (history : Option (List PricePoint)) : RatioSet :=
  let closes := (history.getD []).map PricePoint.close
  { sma20 := sma (lastN 20 closes)
    sma50 := sma (lastN 50 closes)
    rsi14 := rsi closes 14
    latest_close := closes.getLastD 0 }

/-! ## `src/tools/news.py` -/

/-- The fixed positive-word set of `NewsTool._naive_sentiment`. -/
def positiveWords : List String := ["growth", "beat", "win", "strong"]

/-- The fixed negative-word set of `NewsTool._naive_sentiment`. -/
def negativeWords : List String := ["risk", "concern", "loss", "slow"]

/-- `positive = sum(text.count(word) for word in (...))` on the
lower-cased text. -/
def posCount (text : String) : Nat :=
  (positiveWords.map fun w => countOccs w.data (lowerChars text)).sum

/-- `negative = sum(text.count(word) for word in (...))` on the
lower-cased text. -/
def negCount (text : String) : Nat :=
  (negativeWords.map fun w => countOccs w.data (lowerChars text)).sum

/-- `NewsTool._naive_sentiment(text)` from `src/tools/news.py`. -/
def NewsTool.naive_sentiment (text : String) : ℚ :=
  let positive := posCount text
  let negative := negCount text
  if positive = negative then 0
  else
    let total := positive + negative
    if total = 0 then 0
    else round2 (((positive : ℚ) - (negative : ℚ)) / (total : ℚ))

/-! ## `src/tools/prices.py` -/

/-- The dictionary returned by `PricesTool.fetch` in live mode. -/
structure PricesPayload where
  ticker : String
  currency : String
  history : List PricePoint
  fifty_two_week_high : ℚ
  fifty_two_week_low : ℚ
  latest_close : ℚ
  avg_close_30d : ℚ
deriving DecidableEq, Repr

/-- `PricesTool._download_history` from `src/tools/prices.py`.  The
frame returned by `yfinance.download` is modeled as the list of its
rows; an empty frame raises `ValueError`, otherwise the last 90 rows
(`data.tail(90)`) become `{date, close}` entries with the close rounded
to 2 decimals. -/
def downloadHistory (ticker : String) (rows : List PricePoint) :
    Except String (List PricePoint) :=
  if rows = [] then
    .error ("No price data returned for " ++ ticker ++ ".")
  else
    .ok ((lastN 90 rows).map fun r => { date := r.date, close := round2 r.close })

/-- `PricesTool.fetch` from `src/tools/prices.py` in live mode
(`use_fixtures = False`, `yfinance` installed), with the downloaded
frame supplied as `rows`.  `closes[-1]` is modeled by `getLastD 0`; the
code only reaches it when `closes` is non-empty. -/
def PricesTool.fetch (ticker : String) (rows : List PricePoint) :
    Except String PricesPayload := do
  let tkr := toUpperPy ticker
  let history ← downloadHistory tkr rows
  let closes := history.map PricePoint.close
  let latest_close := closes.getLastD 0
  return { ticker := tkr
           currency := "USD"
           history := history
           fifty_two_week_high := listMax closes
           fifty_two_week_low := listMin closes
           latest_close := latest_close
           avg_close_30d :=
             if 30 ≤ closes.length then
               round2 ((lastN 30 closes).sum / ((lastN 30 closes).length : ℚ))
             else latest_close }

/-! ## `src/tools/edgar.py`

The XML/HTML parsing done by `ElementTree` and `BeautifulSoup` is
external-library behavior; the embedded functions receive the parsed
shapes those libraries would hand back (feed entries, the document
table, the text nodes matching the `Item 7` pattern) and perform all of
the repository's own string processing on them. -/

/-- `stripLitCaseless pat s`: if `s` starts with the literal `pat`
compared case-insensitively, return the rest of `s`. -/
def stripLitCaseless : List Char → List Char → Option (List Char)
  | [], s => some s
  | _ :: _, [] => none
  | p :: ps, c :: cs =>
    if p.toLower == c.toLower then stripLitCaseless ps cs else none

/-- `stripLitExact pat s`: if `s` starts with the literal `pat`
(case-sensitively), return the rest of `s`. -/
def stripLitExact : List Char → List Char → Option (List Char)
  | [], s => some s
  | _ :: _, [] => none
  | p :: ps, c :: cs =>
    if p == c then stripLitExact ps cs else none

/-- `anySuffix f s` is true when `f` holds at some suffix of `s`: the
scan performed by `re.search`, which tries every start position from the
left. -/
def anySuffix (f : List Char → Bool) : List Char → Bool
  | [] => f []
  | c :: rest => f (c :: rest) || anySuffix f rest

/-- Match of the regex `Item\s+7A\.|Item\s+8\.` (case-insensitive)
anchored at the start of `s`. -/
def stopPatternAt (s : List Char) : Bool :=
  match stripLitCaseless "item".data s with
  | none => false
  | some r1 =>
    match r1 with
    | [] => false
    | c :: _ =>
      if isSpacePy c then
        let r2 := r1.dropWhile isSpacePy
        (stripLitCaseless "7a.".data r2).isSome || (stripLitCaseless "8.".data r2).isSome
      else false

/-- `re.search(r"Item\s+7A\.|Item\s+8\.", s, re.IGNORECASE)` of
`_extract_item7_section` succeeds somewhere in `s`. -/
def hasStopPattern (s : String) : Bool :=
  anySuffix stopPatternAt s.data

/-- `matchDigits n s`: consume exactly `n` ASCII digits from the front
of `s`, returning them and the rest. -/
def matchDigits : Nat → List Char → Option (List Char × List Char)
  | 0, s => some ([], s)
  | _ + 1, [] => none
  | n + 1, c :: cs =>
    if c.isDigit then
      (matchDigits n cs).map fun p => (c :: p.1, p.2)
    else none

/-- Match of the regex `Filed:\s*(\d{4}-\d{2}-\d{2})` anchored at the
start of `s`, returning the captured date. -/
def filedDateAt (s : List Char) : Option String := do
  let r1 ← stripLitExact "Filed:".data s
  let r2 := r1.dropWhile isSpacePy
  let (y, r3) ← matchDigits 4 r2
  let r4 ← stripLitExact "-".data r3
  let (m, r5) ← matchDigits 2 r4
  let r6 ← stripLitExact "-".data r5
  let (d, _) ← matchDigits 2 r6
  return String.mk (y ++ "-".data ++ m ++ "-".data ++ d)

/-- Leftmost match of a scanner `f` over the suffixes of `s`
(`re.search` semantics). -/
def scanFor (f : List Char → Option String) : List Char → Option String
  | [] => f []
  | c :: rest =>
    match f (c :: rest) with
    | some v => some v
    | none => scanFor f rest

/-- `EdgarTool._extract_filed_date` from `src/tools/edgar.py`. -/
def extractFiledDate (summaryHtml : String) : Option String :=
  if summaryHtml = "" then none
  else scanFor filedDateAt summaryHtml.data

/-- An `atom:entry` of the SEC browse feed, as read by `_parse_feed`
after `ElementTree` parsing: the `href` of its first `atom:link` (if
any), its `atom:summary` text (`""` when absent), and the calendar date
its `atom:updated` field parses to (`_extract_updated_date` is a
wrapper around `datetime.fromisoformat`, an external call; its result is
supplied as data, `none` when absent or unparsable). -/
structure AtomEntry where
  linkHref : Option String
  summary : String
  updatedDate : Option String
deriving DecidableEq, Repr

/-- `EdgarTool._parse_feed` from `src/tools/edgar.py`, on the parsed
entry list: no entry raises `ValueError`, an entry without a link href
raises `ValueError`, otherwise the index URL and the filed-on date are
returned. -/
def parseFeed (entries : List AtomEntry) : Except String (String × Option String) :=
  match entries with
  | [] => .error "No 10-K filings found in SEC feed."
  | e :: _ =>
    match e.linkHref with
    | none => .error "SEC feed entry did not include a filing index link."
    | some href =>
      let filedOn :=
        match extractFiledDate e.summary with
        | some d => some d
        | none => e.updatedDate
      .ok (href, filedOn)

/-- A `<tr>` row of the filing-index document table: the stripped cell
texts and the `href` of the row's first `<a>` (if any). -/
structure IndexRow where
  cells : List String
  linkHref : Option String
deriving DecidableEq, Repr

/-- The `tableFile` document table of the filing index page: its rows
plus the `href` of the first `<a>` anywhere in the table (used by the
fallback branch). -/
structure IndexTable where
  rows : List IndexRow
  firstHref : Option String
deriving DecidableEq, Repr

/-- The `/ix?doc=` unwrapping in `_locate_primary_document`:
`href.split("=", 1)[1]` when `href` starts with `"/ix?doc="`. -/
def stripIxDoc (href : String) : String :=
  if isPrefixChars "/ix?doc=".data href.data then href.drop 8 else href

/-- `EdgarTool._locate_primary_document` from `src/tools/edgar.py`, on
the parsed table (`none` when `soup.find` locates no `tableFile`
table).  `join` models `urllib.parse.urljoin`, an external library
function. -/
def locatePrimaryDocument (join : String → String → String)
    (indexUrl : String) (table : Option IndexTable) : Except String String :=
  match table with
  | none => .error "Could not locate document table on the filing index page."
  | some t =>
    let fromRows := t.rows.findSome? fun row =>
      if row.cells = [] ∨ row.cells.length < 2 then none
      else if toUpperPy (row.cells.getD 1 "") ≠ "10-K" then none
      else row.linkHref.map fun href => join indexUrl (stripIxDoc href)
    match fromRows with
    | some url => .ok url
    | none =>
      match t.firstHref with
      | some href => .ok (join indexUrl (stripIxDoc href))
      | none => .error "Unable to resolve primary 10-K document link."

/-- A text node of the filing document matching the regex `Item\s+7\.`
(case-insensitive), in document order, as inspected by
`_extract_item7_section`: its text, the `style` attribute of its parent
element (`none` when the node has no parent or the parent has no
style), and the stripped text blocks of the following siblings of the
container that `find_parent(["div", "p", "section", "article", "body"])`
resolves for it (each block is `get_text(" ", strip=True)` for a tag or
`str(sibling).strip()` for a string node). -/
structure Item7Candidate where
  text : String
  parentStyle : Option String
  containerSiblings : List String
deriving DecidableEq, Repr

/-- The heading-selection loop of `_extract_item7_section`: the first
candidate whose stripped text is non-empty and whose parent style
contains `font-weight:700` (lower-cased) or whose stripped text is
upper-case (Python `str.isupper`); otherwise the last match, if any. -/
def chooseHeading (cands : List Item7Candidate) : Option Item7Candidate :=
  let isUpperPy : String → Bool := fun s =>
    s.data.any Char.isAlpha && s.data.all fun c => !c.isAlpha || c.isUpper
  match cands.find? (fun c =>
      decide (c.text.trim ≠ "") &&
        (hasSubstr "font-weight:700".data (lowerChars (c.parentStyle.getD "")) ||
          isUpperPy c.text.trim)) with
  | some c => some c
  | none => cands.getLast?

/-- `" ".join(chunks)` (Python). -/
def joinSpace (chunks : List String) : String :=
  String.intercalate " " chunks

/-- The sibling-collection loop of `_extract_item7_section`: skip empty
blocks, stop before a block matching `Item\s+7A\.|Item\s+8\.`, append
otherwise, and stop after appending once the joined text reaches 4000
characters.  `acc` holds the chunks collected so far. -/
def collectChunks (sibs : List String) (acc : List String) : List String :=
  match sibs with
  | [] => acc
  | b :: rest =>
    if b = "" then collectChunks rest acc
    else if hasStopPattern b then acc
    else
      let acc2 := acc ++ [b]
      if 4000 ≤ (joinSpace acc2).length then acc2 else collectChunks rest acc2

/-- Scan of `re.sub(r"\s+", " ", s)`: each whitespace run becomes a
single space.  `fuel` only bounds the recursion depth (every step
consumes at least one character) to keep the recursion structural. -/
def collapseWsAux : Nat → List Char → List Char
  | 0, _ => []
  | _, [] => []
  | f + 1, c :: rest =>
    if isSpacePy c then ' ' :: collapseWsAux f (rest.dropWhile isSpacePy)
    else c :: collapseWsAux f rest

/-- `re.sub(r"\s+", " ", s)`: collapse every maximal whitespace run to a
single space. -/
def collapseWsChars (s : List Char) : List Char :=
  collapseWsAux s.length s

/-- The error sentence `_extract_item7_section` returns when its
heuristics are exhausted. -/
def item7ErrMsg : String :=
  "Unable to extract Item 7 management discussion from the filing."

/-- `EdgarTool._extract_item7_section` from `src/tools/edgar.py`, on
the document's parsed `Item 7` text-node candidates. -/
def extractItem7 (cands : List Item7Candidate) : String :=
  match chooseHeading cands with
  | none => item7ErrMsg
  | some h =>
    let chunks := collectChunks h.containerSiblings []
    if chunks = [] then item7ErrMsg
    else (String.mk (collapseWsChars (joinSpace chunks).data)).take 4000 |>.trim

/-- The dictionary returned by `EdgarTool._fetch_live_html`; the
`"section"` key is named `sectionText` here because `section` is a Lean
keyword. -/
structure EdgarRecord where
  ticker : String
  sectionText : String
  source_url : String
  filed_on : Option String
  filing_type : String
deriving DecidableEq, Repr

/-- The external responses consumed during one `EdgarTool.fetch` call:
the parsed browse-feed entries, the parsed filing-index document table
(`none` when absent from the page), and the filing document's `Item 7`
text-node candidates. -/
structure EdgarEnv where
  feedEntries : List AtomEntry
  indexTable : Option IndexTable
  docCands : List Item7Candidate

/-- `EdgarTool.fetch` from `src/tools/edgar.py` (which delegates to
`_fetch_live_html`), instrumented with the number of `client.get`
network calls issued before returning or raising.  The tool object
carries no cache of any kind — its only attributes are `use_fixtures`,
`fixtures_path`, and `sec_user_agent` — so the call is a pure function
of its inputs: nothing is saved between calls. -/
def EdgarTool.fetch (join : String → String → String) (env : EdgarEnv)
    (useFixtures : Bool) (secUserAgent : Option String) (ticker : String) :
    Except String EdgarRecord × Nat :=
  let tkr := toUpperPy ticker
  if useFixtures then
    (.error "Fixture mode is disabled; live SEC data is required.", 0)
  else
    match secUserAgent with
    | none => (.error "SEC user agent is required for live EDGAR calls.", 0)
    | some _ =>
      -- GET of the browse-edgar feed (1 network call), then parse.
      match parseFeed env.feedEntries with
      | .error e => (.error e, 1)
      | .ok (indexUrl, filedOn) =>
        -- GET of the filing index page inside `_locate_primary_document`
        -- (second network call), then table processing.
        match locatePrimaryDocument join indexUrl env.indexTable with
        | .error e => (.error e, 2)
        | .ok documentUrl =>
          -- GET of the primary document (third network call), then
          -- section extraction.
          (.ok { ticker := tkr
                 sectionText := extractItem7 env.docCands
                 source_url := documentUrl
                 filed_on := filedOn
                 filing_type := "10-K" }, 3)

/-! ## `src/runner.py` and the failure-isolation mode of the agent

`src/runner.py` invokes `ResearchAgent(settings, model=model,
collect_failures=collect_failures)` and, in its `except RuntimeError`
branch, reads `agent.failures` and `agent.failure_report()`.  The
`ResearchAgent` in `src/agent.py` has none of these: the
failure-isolation implementation inside the agent is absent from the
sources, and only its caller (`runner.run`) remains.  That missing part
is modelled from the spec below; `runnerRunIsolation` then reproduces
`runner.run`'s own control flow on top of it. -/

/-- A Failure Entry of the Run Failure Log:
`{entity symbol, stage, source name, message}`. -/
structure FailureEntry where
  ticker : String
  stage : String
  source : String
  message : String
deriving DecidableEq, Repr

/-- A per-entity record assembled in isolation mode: the entity symbol
plus the successfully fetched fields, one `(source name, payload)` pair
per fetcher that succeeded. -/
structure EntityOut where
  ticker : String
  fields : List (String × String)
deriving DecidableEq, Repr

/-- The per-entity fetchers the orchestrator runs, in order; `prices`
is the required input, the others are non-essential. -/
def fetcherSources : List String := ["prices", "news", "edgar", "peers"]

/-- Modelled from the spec: the per-entity step of failure-isolation
mode, which is missing from `src/agent.py` (only its caller
`runner.run` survives in the sources).  Per the spec, each fetcher's
error is caught and appended as a Failure Entry tagged with
stage/source, and the entity's record is dropped when the required
price input is missing, kept otherwise. -/
def gatherEntity (results : String → String → Except String String)
    (ticker : String) : Option EntityOut × List FailureEntry :=
  let outcomes := fetcherSources.map fun s => (s, results ticker s)
  let fails := outcomes.filterMap fun o =>
    match o.2 with
    | .error m => some { ticker := ticker, stage := "tool", source := o.1, message := m }
    | .ok _ => none
  let record :=
    if (results ticker "prices").isOk then
      some { ticker := ticker
             fields := outcomes.filterMap fun o => o.2.toOption.map fun v => (o.1, v) }
    else none
  (record, fails)

/-- Modelled from the spec: failure-isolation mode processes every
entity of the batch in order, accumulating the per-entity records and
the Run Failure Log; no error aborts the batch. -/
def isolationBatch (results : String → String → Except String String) :
    List String → List EntityOut × List FailureEntry
  | [] => ([], [])
  | t :: ts =>
    let step := gatherEntity results t
    let rest := isolationBatch results ts
    (step.1.toList ++ rest.1, step.2 ++ rest.2)

/-- Outcome of `runner.run`: either a normal completion with the batch
records, or the distinct failure exit (`SystemExit(1)`) carrying the
partial records and the printed failure report. -/
inductive RunOutcome where
  | completed (records : List EntityOut)
  | failedExit (code : Nat) (records : List EntityOut) (failures : List FailureEntry)
deriving DecidableEq, Repr

/-- The process exit status a `RunOutcome` produces. -/
def RunOutcome.exitCode : RunOutcome → Nat
  | .completed _ => 0
  | .failedExit c _ _ => c

/-- `runner.run(tickers, collect_failures=True)` from `src/runner.py`,
composed with the spec-modelled isolation batch.  Modelled from the
spec on the agent side: `agent.run` completes the whole batch and then
signals collected failures (the `RuntimeError` that `runner.run`
catches) exactly when the Run Failure Log is non-empty.  `runner.run`'s
own code then raises `SystemExit(1)` when `collect_failures` is set and
`agent.failures` is non-empty, and completes normally (printing
`"All tools succeeded without errors."`) otherwise. -/
def runnerRunIsolation (results : String → String → Except String String)
    (tickers : List String) : RunOutcome :=
  let batch := isolationBatch results tickers
  if batch.2.isEmpty then .completed batch.1
  else .failedExit 1 batch.1 batch.2

/-! ## General lemmas about the embedded helpers -/

theorem le_roundHalfEven {A : ℤ} {x : ℚ} (h : (A : ℚ) ≤ x) :
    A ≤ roundHalfEven x := by
  have hA : A ≤ Rat.floor x := Rat.le_floor.mpr h
  unfold roundHalfEven
  split_ifs <;> omega

theorem roundHalfEven_le {B : ℤ} {x : ℚ} (h : x ≤ (B : ℚ)) :
    roundHalfEven x ≤ B := by
  have hfx : (Rat.floor x : ℚ) ≤ x := Rat.le_floor.mp le_rfl
  have hfB : Rat.floor x ≤ B := by
    by_contra hc
    push_neg at hc
    have h1 : B + 1 ≤ Rat.floor x := by omega
    have h2 : ((B + 1 : ℤ) : ℚ) ≤ x := Rat.le_floor.mp h1
    push_cast at h2
    linarith
  unfold roundHalfEven
  split_ifs with h1 h2 h3
  · exact hfB
  · -- the rounded-up branches force `floor x < B`
    have h4 : 1 / 2 < x - (Rat.floor x : ℚ) := h2
    have h5 : (Rat.floor x : ℚ) < (B : ℚ) := by linarith
    have h6 : Rat.floor x < B := Int.cast_lt.mp h5
    omega
  · exact hfB
  · have h4 : ¬x - (Rat.floor x : ℚ) < 1 / 2 := h1
    push_neg at h4
    have h5 : (Rat.floor x : ℚ) < (B : ℚ) := by linarith
    have h6 : Rat.floor x < B := Int.cast_lt.mp h5
    omega

theorem round2_le {B : ℤ} {x : ℚ} (h : x ≤ (B : ℚ)) : round2 x ≤ (B : ℚ) := by
  have h1 : 100 * x ≤ ((100 * B : ℤ) : ℚ) := by push_cast; linarith
  have h2 : roundHalfEven (100 * x) ≤ 100 * B := roundHalfEven_le h1
  have h3 : ((roundHalfEven (100 * x) : ℤ) : ℚ) ≤ ((100 * B : ℤ) : ℚ) :=
    Int.cast_le.mpr h2
  unfold round2
  push_cast at h3 ⊢
  linarith

theorem le_round2 {A : ℤ} {x : ℚ} (h : (A : ℚ) ≤ x) : (A : ℚ) ≤ round2 x := by
  have h1 : ((100 * A : ℤ) : ℚ) ≤ 100 * x := by push_cast; linarith
  have h2 : 100 * A ≤ roundHalfEven (100 * x) := le_roundHalfEven h1
  have h3 : ((100 * A : ℤ) : ℚ) ≤ ((roundHalfEven (100 * x) : ℤ) : ℚ) :=
    Int.cast_le.mpr h2
  unfold round2
  push_cast at h3 ⊢
  linarith

theorem lastN_eq_self {l : List α} {k : Nat} (h : l.length ≤ k) :
    lastN k l = l := by
  unfold lastN
  have : l.length - k = 0 := Nat.sub_eq_zero_of_le h
  rw [this, List.drop_zero]

theorem lastN_length {l : List α} {k : Nat} (h : k ≤ l.length) :
    (lastN k l).length = k := by
  unfold lastN
  rw [List.length_drop]
  omega

theorem lastN_getD (l : List ℚ) (k i : Nat) :
    (lastN k l).getD i 0 = l.getD (l.length - k + i) 0 := by
  unfold lastN
  simp only [List.getD, List.get?_eq_getElem?, List.getElem?_drop]

theorem foldl_max_mem (x : ℚ) (l : List ℚ) : l.foldl max x ∈ x :: l := by
  induction l generalizing x with
  | nil => simp
  | cons a t ih =>
    simp only [List.foldl_cons]
    rcases List.mem_cons.mp (ih (max x a)) with h | h
    · rcases max_choice x a with hm | hm <;> rw [h, hm]
      · exact List.mem_cons_self _ _
      · exact List.mem_cons_of_mem _ (List.mem_cons_self _ _)
    · exact List.mem_cons_of_mem _ (List.mem_cons_of_mem _ h)

theorem le_foldl_max (x : ℚ) (l : List ℚ) : ∀ y ∈ x :: l, y ≤ l.foldl max x := by
  induction l generalizing x with
  | nil =>
    intro y hy
    simp only [List.mem_singleton] at hy
    simp [hy]
  | cons a t ih =>
    intro y hy
    simp only [List.foldl_cons]
    rcases List.mem_cons.mp hy with rfl | hy2
    · exact le_trans (le_max_left y a) (ih (max y a) _ (List.mem_cons_self _ _))
    · rcases List.mem_cons.mp hy2 with rfl | hy3
      · exact le_trans (le_max_right x y) (ih (max x y) _ (List.mem_cons_self _ _))
      · exact ih (max x a) y (List.mem_cons_of_mem _ hy3)

theorem foldl_min_mem (x : ℚ) (l : List ℚ) : l.foldl min x ∈ x :: l := by
  induction l generalizing x with
  | nil => simp
  | cons a t ih =>
    simp only [List.foldl_cons]
    rcases List.mem_cons.mp (ih (min x a)) with h | h
    · rcases min_choice x a with hm | hm <;> rw [h, hm]
      · exact List.mem_cons_self _ _
      · exact List.mem_cons_of_mem _ (List.mem_cons_self _ _)
    · exact List.mem_cons_of_mem _ (List.mem_cons_of_mem _ h)

theorem foldl_min_le (x : ℚ) (l : List ℚ) : ∀ y ∈ x :: l, l.foldl min x ≤ y := by
  induction l generalizing x with
  | nil =>
    intro y hy
    simp only [List.mem_singleton] at hy
    simp [hy]
  | cons a t ih =>
    intro y hy
    simp only [List.foldl_cons]
    rcases List.mem_cons.mp hy with rfl | hy2
    · exact le_trans (ih (min y a) _ (List.mem_cons_self _ _)) (min_le_left y a)
    · rcases List.mem_cons.mp hy2 with rfl | hy3
      · exact le_trans (ih (min x y) _ (List.mem_cons_self _ _)) (min_le_right x y)
      · exact ih (min x a) y (List.mem_cons_of_mem _ hy3)

theorem listMax_mem {l : List ℚ} (h : l ≠ []) : listMax l ∈ l := by
  match l with
  | [] => exact absurd rfl h
  | x :: xs => exact foldl_max_mem x xs

theorem le_listMax {l : List ℚ} : ∀ y ∈ l, y ≤ listMax l := by
  match l with
  | [] => intro y hy; exact absurd hy (List.not_mem_nil y)
  | x :: xs => exact le_foldl_max x xs

theorem listMin_mem {l : List ℚ} (h : l ≠ []) : listMin l ∈ l := by
  match l with
  | [] => exact absurd rfl h
  | x :: xs => exact foldl_min_mem x xs

theorem listMin_le {l : List ℚ} : ∀ y ∈ l, listMin l ≤ y := by
  match l with
  | [] => intro y hy; exact absurd hy (List.not_mem_nil y)
  | x :: xs => exact foldl_min_le x xs

/-! ## Claim theorems

Sections below restore, locally, the default reducibility of the four
`Rat` operations that the standard library ships as `@[irreducible]`,
so that concrete rational computations in witnesses and counterexamples
can be evaluated by the `decide` tactic.  (The kernel never honored the
attribute; this only lets elaboration see the same reductions the
kernel performs.) -/

section
attribute [local semireducible] Rat.add Rat.mul Rat.sub Rat.inv

/-- C9: the ratio computation is total on its public input — for a price
payload whose `history` field is missing (`none`) or an empty list,
`RatiosTool.compute` returns exactly
`{sma20: 0.0, sma50: 0.0, rsi14: 50.0, latest_close: 0.0}`.  In the
embedding the function is total, mirroring the fact that no branch of
the Python code indexes into or divides by the empty history, so no
exception is raised. -/
theorem ratios_compute_total_on_degenerate_history :
    RatiosTool.compute none = { sma20 := 0, sma50 := 0, rsi14 := 50, latest_close := 0 } ∧
    RatiosTool.compute (some []) = { sma20 := 0, sma50 := 0, rsi14 := 50, latest_close := 0 } := by
  decide

/-- C10: sentiment keyword counting is substring-based, not whole-word:
the text `"window"` contains the positive keyword `"win"` only as a
proper substring of a longer word (`"window"` itself is in neither
keyword list), yet it scores `1.0`. -/
theorem naive_sentiment_substring_window :
    NewsTool.naive_sentiment "window" = 1 ∧
    countOccs "win".data "window".data = 1 ∧
    (positiveWords ++ negativeWords).contains "window" = false := by
  decide

theorem naive_sentiment_concrete_example :
    posCount "Strong growth ahead" = 2 ∧ negCount "Strong growth ahead" = 0 ∧
      NewsTool.naive_sentiment "Strong growth ahead" = 1 := by
  decide

end

/-- C7: for every input text the sentiment score is
`(positive − negative) / (positive + negative)` rounded to 2 decimals,
with `0.0` when the counts are equal (which subsumes both counts being
zero); consequently the score always lies in `[-1, 1]`; and a text with
2 positive and 0 negative occurrences scores exactly `1.0`. -/
theorem naive_sentiment_spec :
    (∀ text : String,
      NewsTool.naive_sentiment text =
        if posCount text = negCount text then 0
        else round2 (((posCount text : ℚ) - (negCount text : ℚ)) /
          ((posCount text : ℚ) + (negCount text : ℚ)))) ∧
    (∀ text : String,
      -1 ≤ NewsTool.naive_sentiment text ∧ NewsTool.naive_sentiment text ≤ 1) ∧
    (posCount "Strong growth ahead" = 2 ∧ negCount "Strong growth ahead" = 0 ∧
      NewsTool.naive_sentiment "Strong growth ahead" = 1) := by
  refine ⟨?_, ?_, naive_sentiment_concrete_example⟩
  · intro text
    unfold NewsTool.naive_sentiment
    by_cases hpn : posCount text = negCount text
    · simp [hpn]
    · have htot : posCount text + negCount text ≠ 0 := by omega
      simp only [hpn, if_false, htot]
      push_cast
      simp
  · intro text
    simp only [NewsTool.naive_sentiment]
    split_ifs with h1 h2
    · norm_num
    · norm_num
    · have hpos : 0 < posCount text + negCount text := Nat.pos_of_ne_zero h2
      have hq : (0 : ℚ) < ((posCount text + negCount text : Nat) : ℚ) := by
        exact_mod_cast hpos
      have hn : (0 : ℚ) ≤ (negCount text : ℚ) := Nat.cast_nonneg _
      have hp : (0 : ℚ) ≤ (posCount text : ℚ) := Nat.cast_nonneg _
      have hv1 : ((posCount text : ℚ) - (negCount text : ℚ)) /
          ((posCount text + negCount text : Nat) : ℚ) ≤ 1 := by
        rw [div_le_one hq]
        push_cast
        linarith
      have hv2 : (-1 : ℚ) ≤ ((posCount text : ℚ) - (negCount text : ℚ)) /
          ((posCount text + negCount text : Nat) : ℚ) := by
        rw [le_div_iff₀ hq]
        push_cast
        linarith
      constructor
      · have := le_round2 (A := -1) (x := ((posCount text : ℚ) - (negCount text : ℚ)) /
          ((posCount text + negCount text : Nat) : ℚ)) (by push_cast at hv2 ⊢; linarith)
        push_cast at this ⊢
        exact this
      · have := round2_le (B := 1) (x := ((posCount text : ℚ) - (negCount text : ℚ)) /
          ((posCount text + negCount text : Nat) : ℚ)) (by push_cast at hv1 ⊢; linarith)
        push_cast at this ⊢
        exact this

/-- Witness for C7: the bounds applied at a concrete text, and the
formula applied at a text with unequal counts. -/
theorem naive_sentiment_spec_witness :
    (-1 ≤ NewsTool.naive_sentiment "risk of loss and slow growth" ∧
      NewsTool.naive_sentiment "risk of loss and slow growth" ≤ 1) ∧
    NewsTool.naive_sentiment "risk of loss and slow growth" =
      if posCount "risk of loss and slow growth" = negCount "risk of loss and slow growth"
      then 0
      else round2 (((posCount "risk of loss and slow growth" : ℚ) -
          (negCount "risk of loss and slow growth" : ℚ)) /
        ((posCount "risk of loss and slow growth" : ℚ) +
          (negCount "risk of loss and slow growth" : ℚ))) :=
  ⟨naive_sentiment_spec.2.1 "risk of loss and slow growth",
    naive_sentiment_spec.1 "risk of loss and slow growth"⟩

section
attribute [local semireducible] Rat.add Rat.mul Rat.sub Rat.inv

theorem round2_zero : round2 0 = 0 := by decide

end

theorem rsiChanges_pos_of_inc {prices : List ℚ} (hlen : 15 ≤ prices.length)
    (hmono : ∀ i, i < 14 →
      (lastN 15 prices).getD i 0 < (lastN 15 prices).getD (i + 1) 0) :
    ∀ c ∈ rsiChanges prices 14, 0 < c := by
  intro c hc
  rcases List.mem_map.mp hc with ⟨k, hk, rfl⟩
  have hk14 : k < 14 := List.mem_range.mp hk
  have h1 := hmono (13 - k) (by omega)
  rw [lastN_getD, lastN_getD] at h1
  have e1 : prices.length - 15 + (13 - k) = prices.length - (k + 2) := by omega
  have e2 : prices.length - 15 + (13 - k + 1) = prices.length - (k + 1) := by omega
  rw [e1, e2] at h1
  linarith

theorem rsiChanges_neg_of_dec {prices : List ℚ} (hlen : 15 ≤ prices.length)
    (hmono : ∀ i, i < 14 →
      (lastN 15 prices).getD (i + 1) 0 < (lastN 15 prices).getD i 0) :
    ∀ c ∈ rsiChanges prices 14, c < 0 := by
  intro c hc
  rcases List.mem_map.mp hc with ⟨k, hk, rfl⟩
  have hk14 : k < 14 := List.mem_range.mp hk
  have h1 := hmono (13 - k) (by omega)
  rw [lastN_getD, lastN_getD] at h1
  have e1 : prices.length - 15 + (13 - k) = prices.length - (k + 2) := by omega
  have e2 : prices.length - 15 + (13 - k + 1) = prices.length - (k + 1) := by omega
  rw [e1, e2] at h1
  linarith

theorem rsiChanges_length (prices : List ℚ) : (rsiChanges prices 14).length = 14 := by
  simp [rsiChanges]

/-- C2 (amended): `_rsi` returns exactly `50.0` on fewer than 15 points;
exactly `100.0` when the last 15 closes are strictly increasing (all
gains, no losses); exactly `0.0` when they are strictly decreasing
(average gain 0); and in the general case returns
`100 − 100/(1 + average_gain/average_loss)` **rounded to 2 decimal
places**, where each side's delta sum over the last 14 intervals is
divided by 14 and zero is substituted for an empty side (the zero
substitution and the division by the period are part of the
`rsiAvgGain`/`rsiAvgLoss` definitions). -/
theorem rsi_spec :
    (∀ prices : List ℚ, prices.length < 15 → rsi prices 14 = 50) ∧
    (∀ prices : List ℚ, 15 ≤ prices.length →
      (∀ i, i < 14 →
        (lastN 15 prices).getD i 0 < (lastN 15 prices).getD (i + 1) 0) →
      rsi prices 14 = 100) ∧
    (∀ prices : List ℚ, 15 ≤ prices.length →
      (∀ i, i < 14 →
        (lastN 15 prices).getD (i + 1) 0 < (lastN 15 prices).getD i 0) →
      rsi prices 14 = 0) ∧
    (∀ prices : List ℚ, 15 ≤ prices.length → rsiAvgLoss prices 14 ≠ 0 →
      rsi prices 14 =
        round2 (100 - 100 / (1 + rsiAvgGain prices 14 / rsiAvgLoss prices 14))) := by
  refine ⟨?_, ?_, ?_, ?_⟩
  · intro prices h
    simp only [rsi]
    rw [if_pos h]
  · intro prices hlen hmono
    have hpos := rsiChanges_pos_of_inc hlen hmono
    have hfilter : (rsiChanges prices 14).filter (fun c => decide (c < 0)) = [] := by
      rw [List.filter_eq_nil_iff]
      intro a ha
      simp only [decide_eq_true_eq, not_lt]
      exact le_of_lt (hpos a ha)
    have hloss : rsiAvgLoss prices 14 = 0 := by
      simp only [rsiAvgLoss, hfilter, List.map_nil, if_pos]
    simp only [rsi]
    rw [if_neg (by omega), if_pos hloss]
  · intro prices hlen hmono
    have hneg := rsiChanges_neg_of_dec hlen hmono
    have hgains : (rsiChanges prices 14).filter (fun c => decide (0 ≤ c)) = [] := by
      rw [List.filter_eq_nil_iff]
      intro a ha
      simp only [decide_eq_true_eq, not_le]
      exact hneg a ha
    have hgain : rsiAvgGain prices 14 = 0 := by
      simp only [rsiAvgGain, hgains, if_pos]
    have hlosses : (rsiChanges prices 14).filter (fun c => decide (c < 0)) =
        rsiChanges prices 14 := by
      rw [List.filter_eq_self]
      intro a ha
      simp only [decide_eq_true_eq]
      exact hneg a ha
    have hlossesNe : ((rsiChanges prices 14).filter (fun c => decide (c < 0))).map
        (fun c => -c) ≠ [] := by
      rw [hlosses]
      intro hcon
      have := congrArg List.length hcon
      simp only [List.length_map, rsiChanges_length, List.length_nil] at this
      omega
    have hsum : 0 < (((rsiChanges prices 14).filter (fun c => decide (c < 0))).map
        (fun c => -c)).sum := by
      apply List.sum_pos
      · intro x hx
        rcases List.mem_map.mp hx with ⟨a, ha, rfl⟩
        have : a < 0 := hneg a (List.mem_of_mem_filter ha)
        linarith
      · exact hlossesNe
    have hloss : rsiAvgLoss prices 14 =
        (((rsiChanges prices 14).filter (fun c => decide (c < 0))).map
          (fun c => -c)).sum / 14 := by
      simp only [rsiAvgLoss, if_neg hlossesNe]
      norm_num
    have hlossPos : 0 < rsiAvgLoss prices 14 := by
      rw [hloss]
      positivity
    simp only [rsi]
    rw [if_neg (by omega), if_neg (ne_of_gt hlossPos), hgain]
    have harg : (100 : ℚ) - 100 / (1 + 0 / rsiAvgLoss prices 14) = 0 := by
      rw [zero_div, add_zero, div_one, sub_self]
    rw [harg, round2_zero]
  · intro prices hlen hloss
    simp only [rsi]
    rw [if_neg (by omega), if_neg hloss]

section
attribute [local semireducible] Rat.add Rat.mul Rat.sub Rat.inv

/-- A 3-point series (fewer than 15 points). -/
def rsiWitnessShort : List ℚ := [1, 2, 3]

/-- A strictly increasing 20-point series. -/
def rsiWitnessInc : List ℚ :=
  [1, 2, 3, 4, 5, 6, 7, 8, 9, 10, 11, 12, 13, 14, 15, 16, 17, 18, 19, 20]

/-- A strictly decreasing 15-point series. -/
def rsiWitnessDec : List ℚ :=
  [15, 14, 13, 12, 11, 10, 9, 8, 7, 6, 5, 4, 3, 2, 1]

/-- A 15-point series whose deltas alternate `+1, −2`: 7 gains of 1 and
7 losses of 2, so `average_gain = 1/2`, `average_loss = 1`, and the
unrounded RSI formula yields `100/3`. -/
def rsiGeneralEx : List ℚ :=
  [10, 11, 9, 10, 8, 9, 7, 8, 6, 7, 5, 6, 4, 5, 3]

/-- Witness for C2: each clause of `rsi_spec` applied at a concrete
series. -/
theorem rsi_spec_witness :
    rsi rsiWitnessShort 14 = 50 ∧ rsi rsiWitnessInc 14 = 100 ∧
    rsi rsiWitnessDec 14 = 0 ∧
    rsi rsiGeneralEx 14 =
      round2 (100 - 100 / (1 + rsiAvgGain rsiGeneralEx 14 / rsiAvgLoss rsiGeneralEx 14)) :=
  ⟨rsi_spec.1 rsiWitnessShort (by decide),
    rsi_spec.2.1 rsiWitnessInc (by decide) (by decide),
    rsi_spec.2.2.1 rsiWitnessDec (by decide) (by decide),
    rsi_spec.2.2.2 rsiGeneralEx (by decide) (by decide)⟩

/-- Counterexample for C2 as stated: on `rsiGeneralEx` the code returns
the rounded value `33.33`, while the claim's unrounded formula
`100 − 100/(1 + average_gain/average_loss)` yields `100/3 = 33.333…`,
so the returned value differs from the claimed one. -/
theorem rsi_formula_rounding_cex :
    rsi rsiGeneralEx 14 = 3333 / 100 ∧
    rsiAvgGain rsiGeneralEx 14 = 1 / 2 ∧
    rsiAvgLoss rsiGeneralEx 14 = 1 ∧
    100 - 100 / (1 + rsiAvgGain rsiGeneralEx 14 / rsiAvgLoss rsiGeneralEx 14) = 100 / 3 ∧
    decide ((3333 / 100 : ℚ) = 100 / 3) = false := by
  decide

end

/-- C6 (amended): for price payloads with at least 50 history rows,
`sma20` is the arithmetic mean of exactly the last 20 closes **rounded
to 2 decimal places** and `sma50` the rounded mean of exactly the last
50 closes; for a series shorter than `k` the rounded mean is taken over
all available points; and for an empty series the result is the defined
sentinel `0.0`, not an error (the embedded function is total). -/
theorem ratios_sma_spec :
    (∀ rows : List PricePoint, 50 ≤ rows.length →
      (lastN 20 (rows.map PricePoint.close)).length = 20 ∧
      (RatiosTool.compute (some rows)).sma20 =
        round2 ((lastN 20 (rows.map PricePoint.close)).sum / 20) ∧
      (lastN 50 (rows.map PricePoint.close)).length = 50 ∧
      (RatiosTool.compute (some rows)).sma50 =
        round2 ((lastN 50 (rows.map PricePoint.close)).sum / 50)) ∧
    (∀ rows : List PricePoint, rows ≠ [] → rows.length < 20 →
      (RatiosTool.compute (some rows)).sma20 =
        round2 ((rows.map PricePoint.close).sum / (rows.length : ℚ))) ∧
    (∀ rows : List PricePoint, rows ≠ [] → rows.length < 50 →
      (RatiosTool.compute (some rows)).sma50 =
        round2 ((rows.map PricePoint.close).sum / (rows.length : ℚ))) ∧
    ((RatiosTool.compute (some [])).sma20 = 0 ∧
      (RatiosTool.compute (some [])).sma50 = 0) := by
  have hmaplen : ∀ rows : List PricePoint,
      (rows.map PricePoint.close).length = rows.length := fun rows =>
    List.length_map rows PricePoint.close
  have hmapne : ∀ rows : List PricePoint, rows ≠ [] →
      rows.map PricePoint.close ≠ [] := by
    intro rows h hc
    exact h (List.map_eq_nil_iff.mp hc)
  refine ⟨?_, ?_, ?_, by constructor <;> rfl⟩
  · intro rows h50
    have h20 : (lastN 20 (rows.map PricePoint.close)).length = 20 :=
      lastN_length (by rw [hmaplen]; omega)
    have h50l : (lastN 50 (rows.map PricePoint.close)).length = 50 :=
      lastN_length (by rw [hmaplen]; omega)
    have h20ne : lastN 20 (rows.map PricePoint.close) ≠ [] := by
      intro hc
      rw [hc] at h20
      simp at h20
    have h50ne : lastN 50 (rows.map PricePoint.close) ≠ [] := by
      intro hc
      rw [hc] at h50l
      simp at h50l
    refine ⟨h20, ?_, h50l, ?_⟩
    · simp only [RatiosTool.compute, Option.getD_some, sma, if_neg h20ne, h20]
      norm_num
    · simp only [RatiosTool.compute, Option.getD_some, sma, if_neg h50ne, h50l]
      norm_num
  · intro rows hne hlt
    have heq : lastN 20 (rows.map PricePoint.close) = rows.map PricePoint.close :=
      lastN_eq_self (by rw [hmaplen]; omega)
    simp only [RatiosTool.compute, Option.getD_some, heq, sma, if_neg (hmapne rows hne),
      hmaplen]
  · intro rows hne hlt
    have heq : lastN 50 (rows.map PricePoint.close) = rows.map PricePoint.close :=
      lastN_eq_self (by rw [hmaplen]; omega)
    simp only [RatiosTool.compute, Option.getD_some, heq, sma, if_neg (hmapne rows hne),
      hmaplen]

section
attribute [local semireducible] Rat.add Rat.mul Rat.sub Rat.inv

/-- 50 rows all closing at 2. -/
def smaWitnessRows50 : List PricePoint :=
  List.replicate 50 { date := "d", close := (2 : ℚ) }

/-- 3 rows all closing at 2. -/
def smaWitnessRows3 : List PricePoint :=
  List.replicate 3 { date := "d", close := (2 : ℚ) }

/-- Witness for C6: the clauses of `ratios_sma_spec` applied at concrete
histories of 50 and 3 rows. -/
theorem ratios_sma_spec_witness :
    ((lastN 20 (smaWitnessRows50.map PricePoint.close)).length = 20 ∧
      (RatiosTool.compute (some smaWitnessRows50)).sma20 =
        round2 ((lastN 20 (smaWitnessRows50.map PricePoint.close)).sum / 20) ∧
      (lastN 50 (smaWitnessRows50.map PricePoint.close)).length = 50 ∧
      (RatiosTool.compute (some smaWitnessRows50)).sma50 =
        round2 ((lastN 50 (smaWitnessRows50.map PricePoint.close)).sum / 50)) ∧
    (RatiosTool.compute (some smaWitnessRows3)).sma20 =
      round2 ((smaWitnessRows3.map PricePoint.close).sum / (smaWitnessRows3.length : ℚ)) ∧
    (RatiosTool.compute (some smaWitnessRows3)).sma50 =
      round2 ((smaWitnessRows3.map PricePoint.close).sum / (smaWitnessRows3.length : ℚ)) :=
  ⟨ratios_sma_spec.1 smaWitnessRows50 (by decide),
    ratios_sma_spec.2.1 smaWitnessRows3 (by decide) (by decide),
    ratios_sma_spec.2.2.1 smaWitnessRows3 (by decide) (by decide)⟩

/-- 50 rows: 49 closes of 1 followed by one close of 1.02, so the last
20 closes are 19 ones and one 1.02, whose exact mean `1.001` is not
representable in 2 decimal places. -/
def smaCexRows : List PricePoint :=
  List.replicate 49 { date := "d", close := (1 : ℚ) } ++
    [{ date := "d", close := 51 / 50 }]

set_option maxRecDepth 8000 in
/-- Counterexample for C6 as stated: on `smaCexRows` the computed
`sma20` is the rounded value `1.00`, while the exact arithmetic mean of
the last 20 closes is `1001/1000 = 1.001`, so `sma20` is not the mean. -/
theorem sma_mean_rounding_cex :
    (RatiosTool.compute (some smaCexRows)).sma20 = 1 ∧
    (lastN 20 (smaCexRows.map PricePoint.close)).sum / 20 = 1001 / 1000 ∧
    decide ((1 : ℚ) = 1001 / 1000) = false := by
  decide

end

/-- C8 (amended): for every non-empty row set, the live price fetch
succeeds and returns a non-empty history (the last 90 rows with closes
rounded to 2 decimals); its 52-week high and low are exactly the
maximum and minimum of the returned closes; the 30-day average close is
the mean of the last 30 closes **rounded to 2 decimal places** when at
least 30 points are available, and degrades to the latest close (rather
than failing) when fewer than 30 points are available. -/
theorem prices_fetch_summary_spec :
    ∀ (ticker : String) (rows : List PricePoint) (p : PricesPayload),
      PricesTool.fetch ticker rows = .ok p →
      p.history = (lastN 90 rows).map
        (fun r => { date := r.date, close := round2 r.close }) ∧
      p.history ≠ [] ∧
      (p.fifty_two_week_high ∈ p.history.map PricePoint.close ∧
        ∀ x ∈ p.history.map PricePoint.close, x ≤ p.fifty_two_week_high) ∧
      (p.fifty_two_week_low ∈ p.history.map PricePoint.close ∧
        ∀ x ∈ p.history.map PricePoint.close, p.fifty_two_week_low ≤ x) ∧
      (30 ≤ p.history.length →
        p.avg_close_30d = round2 ((lastN 30 (p.history.map PricePoint.close)).sum /
          ((lastN 30 (p.history.map PricePoint.close)).length : ℚ))) ∧
      (p.history.length < 30 → p.avg_close_30d = p.latest_close) := by
  intro ticker rows p hp
  by_cases hr : rows = []
  · rw [hr] at hp
    simp [PricesTool.fetch, downloadHistory] at hp
  · have hdl : downloadHistory (toUpperPy ticker) rows =
        .ok ((lastN 90 rows).map fun r => { date := r.date, close := round2 r.close }) := by
      simp [downloadHistory, hr]
    have hlen90 : 1 ≤ (lastN 90 rows).length := by
      have h1 : 1 ≤ rows.length := List.length_pos.mpr hr
      unfold lastN
      rw [List.length_drop]
      omega
    have hfetch : PricesTool.fetch ticker rows = .ok
        { ticker := toUpperPy ticker
          currency := "USD"
          history := (lastN 90 rows).map fun r => { date := r.date, close := round2 r.close }
          fifty_two_week_high := listMax
            (((lastN 90 rows).map fun r =>
              ({ date := r.date, close := round2 r.close } : PricePoint)).map PricePoint.close)
          fifty_two_week_low := listMin
            (((lastN 90 rows).map fun r =>
              ({ date := r.date, close := round2 r.close } : PricePoint)).map PricePoint.close)
          latest_close := (((lastN 90 rows).map fun r =>
            ({ date := r.date, close := round2 r.close } : PricePoint)).map
              PricePoint.close).getLastD 0
          avg_close_30d :=
            if 30 ≤ (((lastN 90 rows).map fun r =>
                ({ date := r.date, close := round2 r.close } : PricePoint)).map
                  PricePoint.close).length then
              round2 ((lastN 30 (((lastN 90 rows).map fun r =>
                  ({ date := r.date, close := round2 r.close } : PricePoint)).map
                    PricePoint.close)).sum /
                ((lastN 30 (((lastN 90 rows).map fun r =>
                  ({ date := r.date, close := round2 r.close } : PricePoint)).map
                    PricePoint.close)).length : ℚ))
            else (((lastN 90 rows).map fun r =>
              ({ date := r.date, close := round2 r.close } : PricePoint)).map
                PricePoint.close).getLastD 0 } := by
      simp only [PricesTool.fetch, hdl]
      rfl
    rw [hfetch] at hp
    rw [Except.ok.injEq] at hp
    subst hp
    have hne : ((lastN 90 rows).map fun r =>
        ({ date := r.date, close := round2 r.close } : PricePoint)) ≠ [] := by
      intro hc
      have := congrArg List.length hc
      rw [List.length_map, List.length_nil] at this
      omega
    have hcne : (((lastN 90 rows).map fun r =>
        ({ date := r.date, close := round2 r.close } : PricePoint)).map
          PricePoint.close) ≠ [] := by
      intro hc
      have := congrArg List.length hc
      rw [List.length_map, List.length_map, List.length_nil] at this
      omega
    have hc : (((lastN 90 rows).map fun r =>
        ({ date := r.date, close := round2 r.close } : PricePoint)).map
          PricePoint.close).length =
        ((lastN 90 rows).map fun r =>
          ({ date := r.date, close := round2 r.close } : PricePoint)).length :=
      List.length_map _ _
    refine ⟨rfl, hne, ⟨listMax_mem hcne, le_listMax⟩, ⟨listMin_mem hcne, listMin_le⟩,
      ?_, ?_⟩
    · intro h30
      rw [if_pos (by rw [hc]; exact h30)]
    · intro h30
      have h30b : ((lastN 90 rows).map fun r =>
          ({ date := r.date, close := round2 r.close } : PricePoint)).length < 30 := h30
      rw [if_neg (by rw [hc]; omega)]

section
attribute [local semireducible] Rat.add Rat.mul Rat.sub Rat.inv

/-- 30 rows: 29 closes of 1 followed by one close of 1.03, whose exact
30-point mean `1.001` is not representable in 2 decimal places. -/
def pricesCexRows : List PricePoint :=
  List.replicate 29 { date := "2024-01-02", close := (1 : ℚ) } ++
    [{ date := "2024-01-03", close := 103 / 100 }]

/-- The payload `PricesTool.fetch "AMZN" pricesCexRows` produces. -/
def pricesCexPayload : PricesPayload :=
  { ticker := "AMZN"
    currency := "USD"
    history := pricesCexRows
    fifty_two_week_high := 103 / 100
    fifty_two_week_low := 1
    latest_close := 103 / 100
    avg_close_30d := 1 }

set_option maxRecDepth 8000 in
/-- Witness for C8: `prices_fetch_summary_spec` applied at a concrete
30-row download. -/
theorem prices_fetch_summary_spec_witness :
    pricesCexPayload.fifty_two_week_high ∈
      pricesCexPayload.history.map PricePoint.close ∧
    pricesCexPayload.avg_close_30d =
      round2 ((lastN 30 (pricesCexPayload.history.map PricePoint.close)).sum /
        ((lastN 30 (pricesCexPayload.history.map PricePoint.close)).length : ℚ)) :=
  ⟨(prices_fetch_summary_spec "AMZN" pricesCexRows pricesCexPayload (by decide)).2.2.1.1,
    (prices_fetch_summary_spec "AMZN" pricesCexRows pricesCexPayload
      (by decide)).2.2.2.2.1 (by decide)⟩

set_option maxRecDepth 8000 in
/-- Counterexample for C8 as stated: on 30 rows with closes 1 × 29 and
1.03 the fetch succeeds with `avg_close_30d = 1.00`, while the exact
mean of the last 30 returned closes is `1001/1000 = 1.001`, so the
summary's 30-day average is not the exact mean. -/
theorem prices_avg30_rounding_cex :
    PricesTool.fetch "AMZN" pricesCexRows = .ok pricesCexPayload ∧
    (lastN 30 (pricesCexPayload.history.map PricePoint.close)).sum /
      ((lastN 30 (pricesCexPayload.history.map PricePoint.close)).length : ℚ) =
        1001 / 1000 ∧
    pricesCexPayload.avg_close_30d = 1 ∧
    decide ((1 : ℚ) = 1001 / 1000) = false := by
  decide

end

/-- C5 (amended): when the fetched filing index contains no matching
filing entry, `_parse_feed` raises
`ValueError("No 10-K filings found in SEC feed.")` rather than
returning an empty candidate list; a feed with at least one entry never
produces that error (an entry without an index link raises a different,
distinguishable message), so the no-match outcome is signalled by an
exception, not by an empty list. -/
theorem parse_feed_no_match_spec :
    parseFeed [] = .error "No 10-K filings found in SEC feed." ∧
    (∀ (e : AtomEntry) (es : List AtomEntry),
      parseFeed (e :: es) ≠ .error "No 10-K filings found in SEC feed.") ∧
    "No 10-K filings found in SEC feed." ≠
      "SEC feed entry did not include a filing index link." := by
  refine ⟨rfl, ?_, by decide⟩
  intro e es
  simp only [parseFeed]
  match h : e.linkHref with
  | none =>
    simp only []
    intro hc
    have := Except.error.inj hc
    exact absurd this (by decide)
  | some href =>
    simp only []
    intro hc
    exact Except.noConfusion hc

/-- A feed entry carrying an index link and a `Filed:` date in its
summary. -/
def atomEntryEx : AtomEntry :=
  { linkHref := some "https://www.sec.gov/cgi-bin/browse-edgar/idx"
    summary := "10-K - Filed: 2024-01-31 AccNo: 0001-24-000001"
    updatedDate := none }

/-- Witness for C5: the non-empty-feed clause applied at a concrete
entry, together with the value the parse actually produces there. -/
theorem parse_feed_no_match_spec_witness :
    parseFeed [atomEntryEx] ≠ .error "No 10-K filings found in SEC feed." :=
  parse_feed_no_match_spec.2.1 atomEntryEx []

/-- Counterexample for C5 as stated: an index with no matching filing
(no entry at all) makes `_parse_feed` raise, so filing discovery does
not return an empty candidate list there. -/
theorem parse_feed_empty_feed_cex :
    (parseFeed []).isOk = false ∧
    parseFeed [] = .error "No 10-K filings found in SEC feed." ∧
    parseFeed [atomEntryEx] =
      .ok ("https://www.sec.gov/cgi-bin/browse-edgar/idx", some "2024-01-31") := by
  refine ⟨rfl, rfl, ?_⟩
  decide

/-- C3 (amended): when section extraction exhausts all its heuristics on
a filing without locating the target section (no usable heading, or no
text chunks after the chosen heading), the extraction returns the fixed
non-empty error sentence **in the `section` field itself** — there is no
separate error attribute and the section text is not empty — and the
filing fetch wraps it in the ordinary metadata record without raising:
whenever the feed parse and document location succeed, the fetch returns
`ok` with the metadata and whatever the extractor produced. -/
theorem edgar_extraction_exhausted_spec :
    (∀ cands : List Item7Candidate,
      (chooseHeading cands = none ∨
        ∃ h, chooseHeading cands = some h ∧ collectChunks h.containerSiblings [] = []) →
      extractItem7 cands = item7ErrMsg) ∧
    item7ErrMsg.isEmpty = false ∧
    (∀ (join : String → String → String) (env : EdgarEnv) (ua ticker : String)
        (indexUrl documentUrl : String) (filedOn : Option String),
      parseFeed env.feedEntries = .ok (indexUrl, filedOn) →
      locatePrimaryDocument join indexUrl env.indexTable = .ok documentUrl →
      EdgarTool.fetch join env false (some ua) ticker =
        (.ok { ticker := toUpperPy ticker
               sectionText := extractItem7 env.docCands
               source_url := documentUrl
               filed_on := filedOn
               filing_type := "10-K" }, 3)) := by
  refine ⟨?_, by decide, ?_⟩
  · intro cands hx
    unfold extractItem7
    rcases hx with hnone | ⟨h, hsome, hchunks⟩
    · rw [hnone]
    · rw [hsome]
      simp only [hchunks, if_pos]
  · intro join env ua ticker indexUrl documentUrl filedOn hparse hlocate
    unfold EdgarTool.fetch
    rw [if_neg (by simp)]
    simp only [hparse, hlocate]

/-- Witness input for C3 and C4: a feed with one linked entry, an index
table whose first row is a linked `10-K`, and a document in which no
text node matches the `Item 7` pattern, so the extraction heuristics are
exhausted. -/
def edgarEnvEx : EdgarEnv :=
  { feedEntries := [atomEntryEx]
    indexTable := some
      { rows := [{ cells := ["1", "10-K", "annual.htm"], linkHref := some "annual.htm" }]
        firstHref := some "annual.htm" }
    docCands := [] }

/-- The resolver for relative URLs used in concrete examples, standing
in for `urllib.parse.urljoin`. -/
def joinEx : String → String → String := fun _ rel => rel

/-- Witness for C3: the exhaustion clause applied at a document with no
`Item 7` candidates, and the fetch clause applied at the concrete
environment. -/
theorem edgar_extraction_exhausted_spec_witness :
    extractItem7 ([] : List Item7Candidate) = item7ErrMsg ∧
    EdgarTool.fetch joinEx edgarEnvEx false (some "ua@example.com") "aapl" =
      (.ok { ticker := toUpperPy "aapl"
             sectionText := extractItem7 edgarEnvEx.docCands
             source_url := "annual.htm"
             filed_on := some "2024-01-31"
             filing_type := "10-K" }, 3) :=
  ⟨edgar_extraction_exhausted_spec.1 [] (Or.inl rfl),
    edgar_extraction_exhausted_spec.2.2 joinEx edgarEnvEx "ua@example.com" "aapl"
      "https://www.sec.gov/cgi-bin/browse-edgar/idx" "annual.htm" (some "2024-01-31")
      (by decide) (by decide)⟩

/-- The record the live fetch produces on `edgarEnvEx`. -/
def edgarRecEx : EdgarRecord :=
  { ticker := "AAPL"
    sectionText := item7ErrMsg
    source_url := "annual.htm"
    filed_on := some "2024-01-31"
    filing_type := "10-K" }

/-- Counterexample for C3 as stated: on a filing whose document contains
no `Item 7` heading the fetch succeeds, but the returned record's
section text is the (non-empty) error sentence itself — the section text
is not empty, and no separate error field exists in the returned
dictionary. -/
theorem edgar_empty_section_cex :
    EdgarTool.fetch joinEx edgarEnvEx false (some "ua@example.com") "aapl" =
      (.ok edgarRecEx, 3) ∧
    edgarRecEx.sectionText = item7ErrMsg ∧
    edgarRecEx.sectionText.isEmpty = false := by
  refine ⟨by decide, rfl, by decide⟩

/-- C4 (amended): `EdgarTool.fetch` maintains no identifier cache of any
kind — the uppercased symbol is passed directly as the registry query
parameter, the tool object stores no state between calls, and every call
in live mode issues at least one network request (exactly three when it
succeeds).  In particular a second resolve call for the same symbol
repeats the same network calls instead of issuing zero. -/
theorem edgar_fetch_no_cache_spec :
    ∀ (join : String → String → String) (env : EdgarEnv) (ua ticker : String),
      1 ≤ (EdgarTool.fetch join env false (some ua) ticker).2 ∧
      ((EdgarTool.fetch join env false (some ua) ticker).1.isOk = true →
        (EdgarTool.fetch join env false (some ua) ticker).2 = 3) := by
  intro join env ua ticker
  unfold EdgarTool.fetch
  rw [if_neg (by simp)]
  cases hp : parseFeed env.feedEntries with
  | error e =>
    simp only [hp]
    refine ⟨by norm_num, ?_⟩
    intro h
    simp [Except.isOk, Except.toBool] at h
  | ok v =>
    obtain ⟨indexUrl, filedOn⟩ := v
    simp only [hp]
    cases hl : locatePrimaryDocument join indexUrl env.indexTable with
    | error e =>
      simp only [hl]
      refine ⟨by norm_num, ?_⟩
      intro h
      simp [Except.isOk, Except.toBool] at h
    | ok documentUrl =>
      simp only [hl]
      exact ⟨by norm_num, fun _ => by trivial⟩

/-- Witness for C4: the call-count bounds applied at the concrete
environment, where the fetch succeeds. -/
theorem edgar_fetch_no_cache_spec_witness :
    1 ≤ (EdgarTool.fetch joinEx edgarEnvEx false (some "ua@example.com") "AMZN").2 ∧
    (EdgarTool.fetch joinEx edgarEnvEx false (some "ua@example.com") "AMZN").2 = 3 :=
  ⟨(edgar_fetch_no_cache_spec joinEx edgarEnvEx "ua@example.com" "AMZN").1,
    (edgar_fetch_no_cache_spec joinEx edgarEnvEx "ua@example.com" "AMZN").2 (by decide)⟩

/-- Counterexample for C4 as stated: the tool object carries no cache
state, so a second resolve call for the same symbol within any time
window is the same pure function application; it issues 3 network calls
(feed, index page, document), not zero, and no time-to-live exists
anywhere in the code. -/
theorem edgar_second_call_network_cex :
    (EdgarTool.fetch joinEx edgarEnvEx false (some "ua@example.com") "AMZN").2 = 3 ∧
    decide ((3 : Nat) = 0) = false := by
  refine ⟨by decide, rfl⟩

/-- Per-ticker fetch outcomes for the C1 scenario: a batch of three
entities where entity #2's (`"BBB"`) price fetch raises `NoDataError`
and every other fetch succeeds. -/
def resultsEx : String → String → Except String String := fun t s =>
  if t = "BBB" ∧ s = "prices" then
    .error "NoDataError: No price data returned for BBB."
  else .ok (s ++ ":ok")

/-- The complete record the isolation batch assembles for `"AAA"`. -/
def entityOutAAA : EntityOut :=
  { ticker := "AAA"
    fields := [("prices", "prices:ok"), ("news", "news:ok"),
      ("edgar", "edgar:ok"), ("peers", "peers:ok")] }

/-- The complete record the isolation batch assembles for `"CCC"`. -/
def entityOutCCC : EntityOut :=
  { ticker := "CCC"
    fields := [("prices", "prices:ok"), ("news", "news:ok"),
      ("edgar", "edgar:ok"), ("peers", "peers:ok")] }

/-- The single Failure Entry recorded for `"BBB"`. -/
def failureBBB : FailureEntry :=
  { ticker := "BBB", stage := "tool", source := "prices"
    message := "NoDataError: No price data returned for BBB." }

/-- C1 (spec-modelled agent side, `runner.py` exit logic): in
failure-isolation mode the run always processes the whole batch — the
records are exactly those of the tickers whose required price fetch
succeeded, and the Run Failure Log holds one Failure Entry per failed
fetch of every ticker, in batch order — and the process exit status is
the distinct non-zero code 1 exactly when the log is non-empty, 0
otherwise.  For the concrete batch `["AAA", "BBB", "CCC"]` where BBB's
price fetch raises `NoDataError`, the outcome carries the complete
records of entities #1 and #3 plus the single Failure Entry for #2, and
exits with status 1. -/
theorem isolation_run_spec :
    (∀ (results : String → String → Except String String) (tickers : List String),
      (isolationBatch results tickers).1 =
        (tickers.filter fun t => (results t "prices").isOk).map (fun t =>
          { ticker := t
            fields := fetcherSources.filterMap fun s =>
              (results t s).toOption.map fun v => (s, v) }) ∧
      (isolationBatch results tickers).2 =
        tickers.flatMap (fun t => fetcherSources.filterMap fun s =>
          match results t s with
          | .error m => some { ticker := t, stage := "tool", source := s, message := m }
          | .ok _ => none) ∧
      (runnerRunIsolation results tickers).exitCode =
        (if (isolationBatch results tickers).2 = [] then 0 else 1)) ∧
    (runnerRunIsolation resultsEx ["AAA", "BBB", "CCC"] =
        .failedExit 1 [entityOutAAA, entityOutCCC] [failureBBB] ∧
      (runnerRunIsolation resultsEx ["AAA", "BBB", "CCC"]).exitCode = 1) := by
  refine ⟨?_, by decide⟩
  intro results tickers
  refine ⟨?_, ?_, ?_⟩
  · induction tickers with
    | nil => rfl
    | cons t ts ih =>
      simp only [isolationBatch, gatherEntity, List.filter_cons]
      cases h : (results t "prices").isOk with
      | true =>
        simp [h, ih, List.filterMap_map, Function.comp]
        rfl
      | false => simp [h, ih]
  · induction tickers with
    | nil => rfl
    | cons t ts ih =>
      simp only [isolationBatch, gatherEntity, List.flatMap_cons]
      simp [ih, List.filterMap_map, Function.comp]
      rfl
  · cases hl : (isolationBatch results tickers).2 with
    | nil => simp [runnerRunIsolation, RunOutcome.exitCode, hl]
    | cons f fs => simp [runnerRunIsolation, RunOutcome.exitCode, hl]
